import Mathlib

/-!
Verification of the shov-js client core (src/src/index.ts and the
ShovWebSocket class) against its specification.

The development shallow-embeds the request-orchestration core:
  * a JSON value model standing in for JavaScript objects, together with a
    stringify function mirroring JSON.stringify for the shapes the SDK builds;
  * insertion-ordered association lists standing in for JavaScript Map
    (Map.set updates in place, Map.delete removes, keys().next() yields the
    first inserted key);
  * the HTTP branch of Shov.request (cache lookup, fetch, cache population,
    LRU trim, write invalidation) as a pure function over the cache, with the
    network modelled as an oracle value;
  * the ShovWebSocket event handlers (handleMessage, the request timeout
    callback, the onclose handler, scheduleReconnect, the keep-alive
    watchdog) as state-transition functions emitting explicit effects;
  * the request-deduplication behaviour of Shov.request as a small-step
    machine over traces of start / settle / deliver events, reflecting the
    single-threaded JavaScript event loop (no interleaving between awaits).
-/

/-- JavaScript values as the SDK manipulates them: JSON-shaped data. -/
inductive Json where
  | null : Json
  | bool (b : Bool) : Json
  | num (n : Int) : Json
  | str (s : String) : Json
  | arr (xs : List Json) : Json
  | obj (fields : List (String × Json)) : Json

/-- Minimal JSON string escaping (backslash and double quote), enough to make
JSON.stringify a function of the value; only consistency of the encoding is
used by the proofs, never injectivity beyond it. -/
def jsonEscape (s : String) : String :=
  s.data.foldl
    (fun acc c =>
      if c = '\\' then acc ++ "\\\\"
      else if c = '"' then acc ++ "\\\""
      else acc.push c) ""

mutual

/-- JSON.stringify as used for cache / dedup fingerprints: object fields are
printed in insertion order, exactly as V8 does for string-keyed objects. -/
def Json.stringify : Json → String
  | .null => "null"
  | .bool b => if b then "true" else "false"
  | .num n => toString n
  | .str s => "\"" ++ jsonEscape s ++ "\""
  | .arr xs => "[" ++ Json.stringifyItems xs ++ "]"
  | .obj fs => "\x7b" ++ Json.stringifyFields fs ++ "\x7d"

def Json.stringifyItems : List Json → String
  | [] => ""
  | [x] => x.stringify
  | x :: y :: xs => x.stringify ++ "," ++ Json.stringifyItems (y :: xs)

def Json.stringifyFields : List (String × Json) → String
  | [] => ""
  | [(k, v)] => "\"" ++ jsonEscape k ++ "\":" ++ v.stringify
  | (k, v) :: f :: fs =>
      "\"" ++ jsonEscape k ++ "\":" ++ v.stringify ++ "," ++
        Json.stringifyFields (f :: fs)

end

/-- JavaScript truthiness on JSON-shaped values. -/
def jsTruthy : Json → Bool
  | .null => false
  | .bool b => b
  | .num n => n != 0
  | .str s => s != ""
  | .arr _ => true
  | .obj _ => true

/-- Lookup in an insertion-ordered map (JavaScript Map.get / property read);
returns the first binding, and JavaScript maps never hold duplicate keys. -/
def mget {α : Type} : List (String × α) → String → Option α
  | [], _ => none
  | (k, v) :: rest, key => if k = key then some v else mget rest key

/-- JavaScript Map.set: update in place if the key exists (keeping its
position in insertion order), otherwise append at the end. -/
def mset {α : Type} : List (String × α) → String → α → List (String × α)
  | [], key, v => [(key, v)]
  | (k, w) :: rest, key, v =>
      if k = key then (k, v) :: rest else (k, w) :: mset rest key v

/-- JavaScript Map.delete: remove the binding of the key, if present. -/
def mdel {α : Type} : List (String × α) → String → List (String × α)
  | [], _ => []
  | (k, v) :: rest, key => if k = key then rest else (k, v) :: mdel rest key

/-- Property access on a JavaScript object: body.field, none for undefined. -/
def jsField (body : Json) (key : String) : Option Json :=
  match body with
  | .obj fs => mget fs key
  | _ => none

theorem mget_mem {α : Type} {l : List (String × α)} {k : String} {v : α}
    (h : mget l k = some v) : (k, v) ∈ l := by
  induction l with
  | nil => simp [mget] at h
  | cons p rest ih =>
      obtain ⟨k', v'⟩ := p
      simp only [mget] at h
      by_cases hk : k' = k
      · rw [if_pos hk] at h
        injection h with h
        subst hk
        subst h
        exact List.mem_cons_self _ _

      · rw [if_neg hk] at h
        exact List.mem_cons_of_mem _ (ih h)

theorem mem_mget {α : Type} {l : List (String × α)} {k : String} {v : α}
    (hnd : (l.map Prod.fst).Nodup) (hmem : (k, v) ∈ l) :
    mget l k = some v := by
  induction l with
  | nil => simp at hmem
  | cons p rest ih =>
      obtain ⟨k', v'⟩ := p
      simp only [List.map_cons, List.nodup_cons] at hnd
      rcases List.mem_cons.mp hmem with hc | hm
      · rw [Prod.mk.injEq] at hc
        obtain ⟨h1, h2⟩ := hc
        simp only [mget]
        rw [if_pos h1.symm, h2]
      · by_cases hk : k' = k
        · subst hk
          exact absurd (List.mem_map_of_mem Prod.fst hm) hnd.1
        · simp only [mget]
          rw [if_neg hk]
          exact ih hnd.2 hm

theorem mget_mdel {α : Type} {l : List (String × α)} {k0 k : String} {v : α}
    (hnd : (l.map Prod.fst).Nodup)
    (h : mget (mdel l k0) k = some v) : mget l k = some v := by
  induction l with
  | nil => simp [mdel, mget] at h
  | cons p rest ih =>
      obtain ⟨k', v'⟩ := p
      simp only [List.map_cons, List.nodup_cons] at hnd
      simp only [mdel] at h
      by_cases hk0 : k' = k0
      · rw [if_pos hk0] at h
        by_cases hk : k' = k
        · subst hk
          exact absurd (List.mem_map_of_mem Prod.fst (mget_mem h)) hnd.1
        · simp only [mget]
          rw [if_neg hk]
          exact h
      · rw [if_neg hk0] at h
        simp only [mget] at h ⊢
        by_cases hk : k' = k
        · rw [if_pos hk] at h ⊢
          exact h
        · rw [if_neg hk] at h ⊢
          exact ih hnd.2 h

theorem mget_mdel_self {α : Type} {l : List (String × α)} {k : String}
    (hnd : (l.map Prod.fst).Nodup) : mget (mdel l k) k = none := by
  induction l with
  | nil => rfl
  | cons p rest ih =>
      obtain ⟨k', v'⟩ := p
      simp only [List.map_cons, List.nodup_cons] at hnd
      simp only [mdel]
      by_cases hk : k' = k
      · rw [if_pos hk]
        subst hk
        cases hres : mget rest k' with
        | none => rfl
        | some w =>
            exact absurd (List.mem_map_of_mem Prod.fst (mget_mem hres)) hnd.1
      · rw [if_neg hk]
        simp only [mget]
        rw [if_neg hk]
        exact ih hnd.2

theorem mget_mset {α : Type} {l : List (String × α)} {key k : String}
    {v w : α} (h : mget (mset l key v) k = some w) :
    (k = key ∧ w = v) ∨ (k ≠ key ∧ mget l k = some w) := by
  induction l with
  | nil =>
      simp only [mset, mget] at h
      by_cases hk : key = k
      · rw [if_pos hk] at h
        injection h with h
        exact Or.inl ⟨hk.symm, h.symm⟩
      · rw [if_neg hk] at h
        cases h
  | cons p rest ih =>
      obtain ⟨k', v'⟩ := p
      simp only [mset] at h
      by_cases hkey : k' = key
      · rw [if_pos hkey] at h
        simp only [mget] at h
        by_cases hk : k' = k
        · rw [if_pos hk] at h
          injection h with h
          exact Or.inl ⟨hk.symm.trans hkey, h.symm⟩
        · rw [if_neg hk] at h
          refine Or.inr ⟨fun hkk => hk (hkey.trans hkk.symm), ?_⟩
          simp only [mget]
          rw [if_neg hk]
          exact h
      · rw [if_neg hkey] at h
        simp only [mget] at h ⊢
        by_cases hk : k' = k
        · rw [if_pos hk] at h ⊢
          refine Or.inr ⟨fun hkk => hkey (hk.trans hkk), h⟩
        · rw [if_neg hk] at h ⊢
          exact ih h

theorem mdel_sublist {α : Type} (l : List (String × α)) (k : String) :
    (mdel l k).Sublist l := by
  induction l with
  | nil => exact List.Sublist.refl _
  | cons p rest ih =>
      obtain ⟨k', v'⟩ := p
      simp only [mdel]
      by_cases hk : k' = k
      · rw [if_pos hk]
        exact (List.Sublist.refl rest).cons _
      · rw [if_neg hk]
        exact List.Sublist.cons₂ _ ih

theorem mget_of_sublist {α : Type} {l' l : List (String × α)} {k : String}
    {v : α} (hs : l'.Sublist l) (hnd : (l.map Prod.fst).Nodup)
    (h : mget l' k = some v) : mget l k = some v :=
  mem_mget hnd (hs.subset (mget_mem h))

/-- Splitter over character lists; always returns a nonempty list of
segments, mirroring JavaScript String.prototype.split on a one-character
separator. -/
def splitOnChar (c : Char) : List Char → List (List Char)
  | [] => [[]]
  | x :: xs =>
      match splitOnChar c xs with
      | [] => [[]]
      | seg :: segs => if x = c then [] :: seg :: segs else (x :: seg) :: segs

/-- JavaScript command.split(sep-char) for a string; String.splitOn in the
library is not kernel-reducible, so the embedding carries its own structural
splitter. -/
def jsSplit (c : Char) (s : String) : List String :=
  (splitOnChar c s.data).map (fun l => String.mk l)

theorem splitOnChar_ne_nil (c : Char) (l : List Char) :
    splitOnChar c l ≠ [] := by
  cases l with
  | nil => simp [splitOnChar]
  | cons x xs =>
      simp only [splitOnChar]
      cases splitOnChar c xs with
      | nil => simp
      | cons seg segs =>
          dsimp only
          by_cases hx : x = c
          · rw [if_pos hx]; simp
          · rw [if_neg hx]; simp

theorem splitOnChar_of_not_mem {c : Char} {l : List Char} (h : c ∉ l) :
    splitOnChar c l = [l] := by
  induction l with
  | nil => rfl
  | cons x xs ih =>
      simp only [List.mem_cons, not_or] at h
      simp only [splitOnChar, ih h.2]
      rw [if_neg (fun hx => h.1 hx.symm)]

theorem splitOnChar_append_not_mem {c : Char} {l1 : List Char}
    (l2 : List Char) (h : c ∉ l1) {seg : List Char} {segs : List (List Char)}
    (hs : splitOnChar c l2 = seg :: segs) :
    splitOnChar c (l1 ++ l2) = (l1 ++ seg) :: segs := by
  induction l1 with
  | nil => simpa using hs
  | cons x xs ih =>
      simp only [List.mem_cons, not_or] at h
      have ihx : splitOnChar c (xs.append l2) = (xs ++ seg) :: segs := ih h.2
      simp only [List.cons_append, splitOnChar, ihx]
      show (if x = c then [] :: (xs ++ seg) :: segs
            else (x :: (xs ++ seg)) :: segs) = ((x :: xs) ++ seg) :: segs
      rw [if_neg (fun hx => h.1 hx.symm)]
      simp

structure CacheEntry where
  data : Json
  timestamp : Nat

abbrev Cache := List (String × CacheEntry)

theorem sizeOf_of_mget_json {fs : List (String × Json)} {k : String}
    {v : Json} (h : mget fs k = some v) : sizeOf v < sizeOf fs := by
  have hm := List.sizeOf_lt_of_mem (mget_mem h)
  have hp : sizeOf (k, v) = 1 + sizeOf k + sizeOf v := rfl
  omega

theorem sizeOf_of_jsField {body : Json} {k : String} {v : Json}
    (h : jsField body k = some v) : sizeOf v < sizeOf body := by
  cases body with
  | obj fs =>
      have h1 : mget fs k = some v := h
      have h2 := sizeOf_of_mget_json h1
      have h3 : sizeOf (Json.obj fs) = 1 + sizeOf fs := by simp
      omega
  | null => simp [jsField] at h
  | bool b => simp [jsField] at h
  | num n => simp [jsField] at h
  | str s => simp [jsField] at h
  | arr xs => simp [jsField] at h

/-- The JavaScript expression pathParam || (body as any).name from
invalidateCache (line 333): undefined and the empty string are falsy. -/
def keyNameOf (pathParam : Option String) (body : Json) : Option Json :=
  match pathParam with
  | some p => if p = "" then jsField body "name" else some (Json.str p)
  | none => jsField body "name"

/-- Lines 331-339 of src/src/index.ts: for key operations (set, forget),
delete the get cache entry for that key when the key name is truthy. -/
def invalidateKeyed (baseCommand : String) (pathParam : Option String)
    (body : Json) (cache : Cache) : Cache :=
  if baseCommand = "set" ∨ baseCommand = "forget" then
    match keyNameOf pathParam body with
    | some kn =>
        if jsTruthy kn then
          mdel cache ("get:" ++ Json.stringify (Json.obj [("name", kn)]))
        else cache
    | none => cache
  else cache

/-- Lines 341-351: for collection operations (add, update, remove, clear),
clear the entire cache, guarded by body.collection being truthy. -/
def invalidateCollection (baseCommand : String) (body : Json)
    (cache : Cache) : Cache :=
  if baseCommand = "add" ∨ baseCommand = "update" ∨ baseCommand = "remove" ∨
      baseCommand = "clear" then
    match jsField body "collection" with
    | some cn => if jsTruthy cn then [] else cache
    | none => cache
  else cache

/-- The two non-recursive invalidation stages of Shov.invalidateCache, in
source order, given the already-split command (lines 327-329 compute
commandParts once; commandParts[0] on a split result is never undefined, so
headD only ever takes the head). -/
def invalidateStages (baseCommand : String) (pathParam : Option String)
    (body : Json) (cache : Cache) : Cache :=
  invalidateCollection baseCommand body
    (invalidateKeyed baseCommand pathParam body cache)

mutual

/-- Embeds Shov.invalidateCache (src/src/index.ts lines 326-361).  The final
branch (lines 353-360) recurses through body.operations for batch commands;
a truthy non-array operations value would make the JavaScript for-of loop
throw, so the model keeps the cache unchanged there (no SDK call builds such
a body), and an array is always truthy in JavaScript, so the truthiness
guard on operations is subsumed by the arr match. -/
def invalidateCache (command : String) (body : Json) (cache : Cache) :
    Cache :=
  if (jsSplit '/' command).headD "" = "batch" then
    match hops : jsField body "operations" with
    | some (Json.arr ops) =>
        invalidateOps ops
          (invalidateStages ((jsSplit '/' command).headD "")
            ((jsSplit '/' command).get? 1) body cache)
    | some _ =>
        invalidateStages ((jsSplit '/' command).headD "")
          ((jsSplit '/' command).get? 1) body cache
    | none =>
        invalidateStages ((jsSplit '/' command).headD "")
          ((jsSplit '/' command).get? 1) body cache
  else
    invalidateStages ((jsSplit '/' command).headD "")
      ((jsSplit '/' command).get? 1) body cache
termination_by sizeOf body
decreasing_by
  have h1 := sizeOf_of_jsField hops
  have h2 : sizeOf (Json.arr ops) = 1 + sizeOf ops := by simp
  omega

/-- The for-of loop of lines 356-359: invalidate for each operation of a
batch, with command op.type (a non-string op.type would make command.split
throw in JavaScript; no SDK call builds one). -/
def invalidateOps (ops : List Json) (cache : Cache) : Cache :=
  match ops with
  | [] => cache
  | op :: rest =>
      invalidateOps rest
        (invalidateCache
          (match jsField op "type" with
           | some (Json.str s) => s
           | _ => "") op cache)
termination_by sizeOf ops
decreasing_by
  all_goals simp [List.cons.sizeOf_spec]
  all_goals omega
end

theorem invalidateKeyed_sublist (b : String) (p : Option String) (body : Json)
    (cache : Cache) : (invalidateKeyed b p body cache).Sublist cache := by
  unfold invalidateKeyed
  split
  · split
    · split
      · exact mdel_sublist _ _
      · exact List.Sublist.refl _
    · exact List.Sublist.refl _
  · exact List.Sublist.refl _

theorem invalidateCollection_sublist (b : String) (body : Json)
    (cache : Cache) : (invalidateCollection b body cache).Sublist cache := by
  unfold invalidateCollection
  split
  · split
    · split
      · exact List.nil_sublist _
      · exact List.Sublist.refl _
    · exact List.Sublist.refl _
  · exact List.Sublist.refl _

theorem invalidateStages_sublist (baseCommand : String)
    (pathParam : Option String) (body : Json) (cache : Cache) :
    (invalidateStages baseCommand pathParam body cache).Sublist cache :=
  (invalidateCollection_sublist _ _ _).trans (invalidateKeyed_sublist _ _ _ _)

mutual

theorem invalidateCache_sublist (command : String) (body : Json)
    (cache : Cache) : (invalidateCache command body cache).Sublist cache := by
  rw [invalidateCache]
  split
  · split
    · exact (invalidateOps_sublist _ _).trans
        (invalidateStages_sublist _ _ _ _)
    · exact invalidateStages_sublist _ _ _ _
    · exact invalidateStages_sublist _ _ _ _
  · exact invalidateStages_sublist _ _ _ _
termination_by sizeOf body
decreasing_by
  rename_i ops hops h heq
  have h1 := sizeOf_of_jsField heq
  have h2 : sizeOf (Json.arr ops) = 1 + sizeOf ops := by simp
  omega

theorem invalidateOps_sublist (ops : List Json) (cache : Cache) :
    (invalidateOps ops cache).Sublist cache := by
  match ops with
  | [] =>
      rw [invalidateOps]
  | op :: rest =>
      rw [invalidateOps]
      exact (invalidateOps_sublist rest _).trans (invalidateCache_sublist _ _ _)
termination_by sizeOf ops
decreasing_by
  all_goals simp [List.cons.sizeOf_spec]
  all_goals omega

end

/-- Result of the fetch / response.json() exchange, as an oracle: ok is
response.ok, status the HTTP status code, data the parsed JSON body. -/
structure NetResult where
  ok : Bool
  status : Nat
  data : Json

/-- Outcome of a request as seen by the caller: the resolved data, or a
thrown ShovError carrying a message and an optional HTTP status. -/
inductive ReqOutcome where
  | ok (data : Json) : ReqOutcome
  | err (message : String) (status : Option Nat) : ReqOutcome

/-- What one call of Shov.request does to the world: the outcome delivered
to the caller, the request cache afterwards, and whether the HTTP transport
was dispatched (a fetch round trip happened). -/
structure RequestResult where
  outcome : ReqOutcome
  cache : Cache
  httpDispatched : Bool

/-- Line 135: private readonly CACHE_TTL = 5000. -/
def CACHE_TTL : Nat := 5000

/-- JavaScript String.prototype.startsWith over the character lists (the
library function String.isPrefixOf is not kernel-reducible). -/
def jsStartsWith (p s : String) : Bool := p.data.isPrefixOf s.data

/-- Line 388: a read operation is a command starting with get, where,
search or count. -/
def isReadOperation (command : String) : Bool :=
  ["get", "where", "search", "count"].any (fun op => jsStartsWith op command)

/-- Line 389: a write operation is a command starting with set, add,
update, forget, remove, clear or batch. -/
def isWriteOperation (command : String) : Bool :=
  ["set", "add", "update", "forget", "remove", "clear", "batch"].any
    (fun op => jsStartsWith op command)

/-- Line 365 / 387: the dedup and cache fingerprints of a request. -/
def cacheKeyOf (command : String) (body : Json) : String :=
  command ++ ":" ++ Json.stringify body

/-- Line 452: data.error || an unknown error occurred.  The remote error
field is a string when present; an absent or empty field falls back to the
default message. -/
def errorMessageOf (d : Json) : String :=
  match jsField d "error" with
  | some (Json.str s) => if s = "" then "An unknown error occurred" else s
  | _ => "An unknown error occurred"

/-- Lines 391-396: the fresh-hit test against the request cache for read
operations issued with POST.  Date.now() - cached.timestamp < CACHE_TTL in
JavaScript; truncated Nat subtraction agrees with the JavaScript comparison
also when the entry timestamp exceeds now (both count as fresh). -/
def cacheHit (cache : Cache) (now : Nat) (command : String) (body : Json)
    (method : String) : Option CacheEntry :=
  if isReadOperation command = true ∧ method = "POST" then
    match mget cache (cacheKeyOf command body) with
    | some e => if now - e.timestamp < CACHE_TTL then some e else none
    | none => none
  else none

/-- Lines 465-476: store a successful read response in the request cache,
then trim the oldest entry (keys().next().value of the insertion-ordered
map) once the cache exceeds 100 entries. -/
def cacheStore (cache : Cache) (now : Nat) (command : String) (body : Json)
    (method : String) (d : Json) : Cache :=
  if isReadOperation command = true ∧ method = "POST" then
    if (mset cache (cacheKeyOf command body) ⟨d, now⟩).length > 100 then
      match (mset cache (cacheKeyOf command body) ⟨d, now⟩).head? with
      | some (oldestKey, _) =>
          mdel (mset cache (cacheKeyOf command body) ⟨d, now⟩) oldestKey
      | none => mset cache (cacheKeyOf command body) ⟨d, now⟩
    else mset cache (cacheKeyOf command body) ⟨d, now⟩
  else cache

/-- Embeds the HTTP branch of Shov.request (src/src/index.ts lines
386-484): cache lookup for fresh read entries, otherwise one fetch round
trip (the oracle net), a thrown ShovError on a non-ok response, cache
population with LRU trim for successful reads, and write invalidation.
The URL, headers and fetch options (lines 398-443) carry no information
the claims depend on; the HTTP/3 client and the pooled agent are absent
(http3Client and agent undefined), and the pendingRequests bookkeeping of
lines 446-463, whose net effect over one whole sequential call is the
identity, is modelled separately by the dedup machine below. -/
def httpPath (net : NetResult) (now : Nat) (command : String) (body : Json)
    (method : String) (cache : Cache) : RequestResult :=
  match cacheHit cache now command body method with
  | some e => ⟨.ok e.data, cache, false⟩
  | none =>
      if net.ok = false then
        ⟨.err (errorMessageOf net.data) (some net.status), cache, true⟩
      else
        ⟨.ok net.data,
          (if isWriteOperation command = true then
            invalidateCache command body
              (cacheStore cache now command body method net.data)
          else cacheStore cache now command body method net.data), true⟩

/-- Outcome of this.wsClient.request as awaited on line 376: the data the
WebSocket promise resolved with, or the message of the error it rejected
with (a transport failure or an error envelope from the remote service,
indistinguishable here just as in the catch of lines 379-384). -/
inductive WsOutcome where
  | ok (data : Json) : WsOutcome
  | err (message : String) : WsOutcome

/-- Embeds Shov.request (src/src/index.ts lines 363-484) for one sequential
call: ws is none when no wsClient is configured, otherwise the settled
outcome of the WebSocket attempt.  A resolved WebSocket request returns
before the cache section is ever reached (lines 372-378); any rejection
falls through to the HTTP branch (lines 379-384). -/
def shovRequest (ws : Option WsOutcome) (net : NetResult) (now : Nat)
    (command : String) (body : Json) (method : String) (cache : Cache) :
    RequestResult :=
  match ws with
  | some (.ok d) => ⟨.ok d, cache, false⟩
  | some (.err _) => httpPath net now command body method cache
  | none => httpPath net now command body method cache


/-- A request cache as it stands after a successful where read on the users
collection: one entry, the state in which claim C1 expects a subsequent
collection write to clear everything. -/
def c1CacheBefore : Cache :=
  [(cacheKeyOf "where" (Json.obj [("name", Json.str "users")]),
    ⟨Json.obj [("items", Json.arr [])], 500⟩)]

/-- The body the SDK itself sends for add(users, v) (line 569): the
collection travels in the name field, and no collection field is present. -/
def c1AddBody : Json :=
  Json.obj [("name", Json.str "users"), ("value", Json.str "x")]

theorem c1_invalidate_add_no_collection :
    invalidateCache "add" c1AddBody c1CacheBefore = c1CacheBefore := by
  rw [invalidateCache]
  rfl

/-- C1: the claim states that every successful collection-affecting write
(add, update, remove, clear) over the HTTP path empties the request cache.
The code disagrees: invalidateCache clears the cache only when
body.collection is truthy (line 343), and the body that Shov.add itself
builds carries the collection under name, so a successful add with a
non-empty cache leaves every cache entry in place. -/
theorem add_succeeds_but_cache_survives :
    httpPath ⟨true, 200, Json.obj [("success", Json.bool true)]⟩ 1000 "add"
        c1AddBody "POST" c1CacheBefore =
      ⟨.ok (Json.obj [("success", Json.bool true)]), c1CacheBefore, true⟩ := by
  have hinv := c1_invalidate_add_no_collection
  calc httpPath ⟨true, 200, Json.obj [("success", Json.bool true)]⟩ 1000 "add"
        c1AddBody "POST" c1CacheBefore
      = ⟨.ok (Json.obj [("success", Json.bool true)]),
          invalidateCache "add" c1AddBody c1CacheBefore, true⟩ := rfl
    _ = ⟨.ok (Json.obj [("success", Json.bool true)]), c1CacheBefore, true⟩ := by
          rw [hinv]

/-- C10: a request whose WebSocket attempt resolves returns that result
before any cache interaction: the request cache is neither consulted (the
outcome is the WebSocket data whatever the cache holds) nor modified, and
no HTTP dispatch happens; both rejected WebSocket attempts and the
no-WebSocket configuration route to the HTTP branch, which is the only
place cache reads, population and invalidation occur. -/
theorem ws_success_leaves_cache_alone (d : Json) (net : NetResult)
    (now : Nat) (command : String) (body : Json) (method : String)
    (cache : Cache) :
    shovRequest (some (.ok d)) net now command body method cache =
        ⟨.ok d, cache, false⟩ ∧
      (∀ e, shovRequest (some (.err e)) net now command body method cache =
        httpPath net now command body method cache) ∧
      shovRequest none net now command body method cache =
        httpPath net now command body method cache :=
  ⟨rfl, fun _ => rfl, rfl⟩

theorem mem_keys_mset {α : Type} {l : List (String × α)} {key x : String}
    {v : α} (h : x ∈ (mset l key v).map Prod.fst) :
    x ∈ l.map Prod.fst ∨ x = key := by
  induction l with
  | nil =>
      simp [mset] at h
      exact Or.inr h
  | cons p rest ih =>
      obtain ⟨k', v'⟩ := p
      simp only [mset] at h
      by_cases hk : k' = key
      · rw [if_pos hk] at h
        simp only [List.map_cons] at h ⊢
        exact Or.inl h
      · rw [if_neg hk] at h
        simp only [List.map_cons, List.mem_cons] at h ⊢
        rcases h with h | h
        · exact Or.inl (Or.inl h)
        · rcases ih h with h2 | h2
          · exact Or.inl (Or.inr h2)
          · exact Or.inr h2

theorem nodup_mset {α : Type} {l : List (String × α)} {key : String} {v : α}
    (hnd : (l.map Prod.fst).Nodup) :
    ((mset l key v).map Prod.fst).Nodup := by
  induction l with
  | nil => simp [mset]
  | cons p rest ih =>
      obtain ⟨k', v'⟩ := p
      simp only [List.map_cons, List.nodup_cons] at hnd
      simp only [mset]
      by_cases hk : k' = key
      · rw [if_pos hk]
        simp only [List.map_cons, List.nodup_cons]
        exact ⟨hnd.1, hnd.2⟩
      · rw [if_neg hk]
        simp only [List.map_cons, List.nodup_cons]
        refine ⟨fun hmem => ?_, ih hnd.2⟩
        rcases mem_keys_mset hmem with h2 | h2
        · exact hnd.1 h2
        · exact hk h2

theorem nodup_mdel {α : Type} {l : List (String × α)} {k : String}
    (hnd : (l.map Prod.fst).Nodup) :
    ((mdel l k).map Prod.fst).Nodup :=
  hnd.sublist ((mdel_sublist l k).map Prod.fst)

theorem nodup_cacheStore {cache : Cache} (now : Nat) (command : String)
    (body : Json) (method : String) (d : Json)
    (hnd : (cache.map Prod.fst).Nodup) :
    ((cacheStore cache now command body method d).map Prod.fst).Nodup := by
  unfold cacheStore
  split
  · split
    · split
      · exact nodup_mdel (nodup_mset hnd)
      · exact nodup_mset hnd
    · exact nodup_mset hnd
  · exact hnd

theorem mget_cacheStore {cache : Cache} {now : Nat} {command : String}
    {body : Json} {method : String} {d : Json} {k : String} {e : CacheEntry}
    (hnd : (cache.map Prod.fst).Nodup)
    (h : mget (cacheStore cache now command body method d) k = some e) :
    mget cache k = some e ∨
      (isReadOperation command = true ∧ method = "POST" ∧
        k = cacheKeyOf command body ∧ e = ⟨d, now⟩) := by
  unfold cacheStore at h
  split at h
  · rename_i hrw
    have hc : mget (mset cache (cacheKeyOf command body) ⟨d, now⟩) k
        = some e := by
      split at h
      · split at h
        · exact mget_mdel (nodup_mset hnd) h
        · exact h
      · exact h
    rcases mget_mset hc with ⟨hk, he⟩ | ⟨_, hm⟩
    · exact Or.inr ⟨hrw.1, hrw.2, hk, he⟩
    · exact Or.inl hm
  · exact Or.inl h

/-- C4: for a read command (get / where / search / count prefix) issued with
POST over the HTTP path, a cache entry for the same (command, body) whose
age is strictly below the 5000 ms TTL is returned as is, with no transport
round trip and the cache untouched; and the only way the HTTP path ever
adds or replaces a cache entry is a successful response to such a read,
stored under the request fingerprint with the current timestamp. -/
theorem read_cache_behaviour (net : NetResult) (now : Nat) (command : String)
    (body : Json) (method : String) (cache : Cache) :
    (∀ e : CacheEntry, isReadOperation command = true → method = "POST" →
      mget cache (cacheKeyOf command body) = some e →
      now - e.timestamp < CACHE_TTL →
      httpPath net now command body method cache =
        ⟨.ok e.data, cache, false⟩) ∧
    ((cache.map Prod.fst).Nodup →
      ∀ (k : String) (e : CacheEntry),
        mget (httpPath net now command body method cache).cache k = some e →
        mget cache k = some e ∨
          (isReadOperation command = true ∧ method = "POST" ∧ net.ok = true ∧
            k = cacheKeyOf command body ∧ e = ⟨net.data, now⟩)) := by
  constructor
  · intro e hr hm hmget hfresh
    have hhit : cacheHit cache now command body method = some e := by
      unfold cacheHit
      rw [if_pos ⟨hr, hm⟩, hmget]
      exact if_pos hfresh
    unfold httpPath
    rw [hhit]
  · intro hnd k e hget
    unfold httpPath at hget
    cases hhit : cacheHit cache now command body method with
    | some e0 =>
        rw [hhit] at hget
        exact Or.inl hget
    | none =>
        rw [hhit] at hget
        by_cases hok : net.ok = false
        · rw [if_pos hok] at hget
          exact Or.inl hget
        · rw [if_neg hok] at hget
          have hok2 : net.ok = true := by
            cases hnet : net.ok
            · exact absurd hnet hok
            · rfl
          have hget2 : mget
              (if isWriteOperation command = true then
                invalidateCache command body
                  (cacheStore cache now command body method net.data)
              else cacheStore cache now command body method net.data) k =
              some e := hget
          have hstore : mget
              (cacheStore cache now command body method net.data) k =
              some e := by
            by_cases hw : isWriteOperation command = true
            · rw [if_pos hw] at hget2
              exact mget_of_sublist (invalidateCache_sublist _ _ _)
                (nodup_cacheStore now command body method net.data hnd) hget2
            · rw [if_neg hw] at hget2
              exact hget2
          rcases mget_cacheStore hnd hstore with h | ⟨h1, h2, h3, h4⟩
          · exact Or.inl h
          · exact Or.inr ⟨h1, h2, hok2, h3, h4⟩

def c4Body : Json := Json.obj [("name", Json.str "k")]

def c4Entry : CacheEntry := ⟨Json.str "v", 400⟩

def c4Cache : Cache := [(cacheKeyOf "get" c4Body, c4Entry)]

/-- Witness for C4 at a concrete fresh cache entry: the hit is returned
with no HTTP dispatch. -/
theorem read_cache_behaviour_witness :
    httpPath ⟨true, 200, Json.null⟩ 1000 "get" c4Body "POST" c4Cache =
      ⟨.ok (Json.str "v"), c4Cache, false⟩ :=
  (read_cache_behaviour ⟨true, 200, Json.null⟩ 1000 "get" c4Body "POST"
      c4Cache).1 c4Entry rfl rfl rfl (by decide)

theorem httpPath_dispatched_of_miss {net : NetResult} {now : Nat}
    {command : String} {body : Json} {method : String} {cache : Cache}
    (h : cacheHit cache now command body method = none) :
    (httpPath net now command body method cache).httpDispatched = true := by
  unfold httpPath
  split
  · rename_i e heq
    rw [h] at heq
    cases heq
  · split
    · rfl
    · rfl

theorem jsSplit_forget (k : String) (hk : '/' ∉ k.data) :
    jsSplit '/' ("forget/" ++ k) = ["forget", k] := by
  unfold jsSplit
  have hdata : ("forget/" ++ k).data = "forget".data ++ ('/' :: k.data) := by
    rw [String.data_append]
    rfl
  rw [hdata]
  have h2 : splitOnChar '/' ('/' :: k.data) = [[], k.data] := by
    simp [splitOnChar, splitOnChar_of_not_mem hk]
  rw [splitOnChar_append_not_mem ('/' :: k.data)
    (show ('/' : Char) ∉ "forget".data by decide) h2]
  simp

def c5GetBody : Json := Json.obj [("name", Json.str "")]

def c5Cache : Cache := [(cacheKeyOf "get" c5GetBody, ⟨Json.str "old", 0⟩)]

def c5SetBody : Json :=
  Json.obj [("name", Json.str ""), ("value", Json.str "new")]

/-- C5 counterexample at the key k = the empty string: the set completes
successfully over HTTP but the keyed invalidation is skipped (an empty key
name is falsy on line 334), the cached get entry survives, and the
immediately following get returns the cached pre-write value with no
transport round trip. -/
theorem set_empty_key_then_stale_get :
    httpPath ⟨true, 200, Json.obj [("success", Json.bool true)]⟩ 100 "set"
        c5SetBody "POST" c5Cache =
      ⟨.ok (Json.obj [("success", Json.bool true)]), c5Cache, true⟩ ∧
    httpPath ⟨true, 200, Json.null⟩ 200 "get" c5GetBody "POST" c5Cache =
      ⟨.ok (Json.str "old"), c5Cache, false⟩ := by
  constructor
  · have hinv : invalidateCache "set" c5SetBody c5Cache = c5Cache := by
      rw [invalidateCache]
      rfl
    calc httpPath ⟨true, 200, Json.obj [("success", Json.bool true)]⟩ 100
          "set" c5SetBody "POST" c5Cache
        = ⟨.ok (Json.obj [("success", Json.bool true)]),
            invalidateCache "set" c5SetBody c5Cache, true⟩ := rfl
      _ = ⟨.ok (Json.obj [("success", Json.bool true)]), c5Cache, true⟩ := by
            rw [hinv]
  · rfl

/-- C5 (amended): for every nonempty key k, a successful set of k over the
HTTP path removes the cache entry of the read get with body name k, and so
does a successful forget of k (command forget/k) whenever k is free of the
path separator; a get of k issued immediately afterwards misses the cache
and dispatches a transport round trip instead of returning any cached
pre-write value.  For k the empty string the keyed invalidation is skipped
(see the counterexample). -/
theorem keyed_write_invalidates_get (k : String) (v : Json) (net : NetResult)
    (now : Nat) (cache : Cache) (hk : k ≠ "") (hok : net.ok = true)
    (hnd : (cache.map Prod.fst).Nodup) :
    (mget (httpPath net now "set"
          (Json.obj [("name", Json.str k), ("value", v)]) "POST" cache).cache
        (cacheKeyOf "get" (Json.obj [("name", Json.str k)])) = none) ∧
    ('/' ∉ k.data →
      mget (httpPath net now ("forget/" ++ k) (Json.obj []) "DELETE"
            cache).cache
          (cacheKeyOf "get" (Json.obj [("name", Json.str k)])) = none) ∧
    (∀ (net2 : NetResult) (now2 : Nat),
      (httpPath net2 now2 "get" (Json.obj [("name", Json.str k)]) "POST"
        (httpPath net now "set"
          (Json.obj [("name", Json.str k), ("value", v)]) "POST"
            cache).cache).httpDispatched = true) := by
  obtain ⟨nok, nst, ndata⟩ := net
  have hok2 : nok = true := hok
  subst hok2
  have htru : jsTruthy (Json.str k) = true := by
    simp only [jsTruthy, bne_iff_ne, ne_eq, decide_not]
    simp only [decide_eq_true_eq] at *
    intro hcon
    exact hk hcon
  have hinv_set : invalidateCache "set"
      (Json.obj [("name", Json.str k), ("value", v)]) cache =
      mdel cache (cacheKeyOf "get" (Json.obj [("name", Json.str k)])) := by
    rw [invalidateCache]
    show (if jsTruthy (Json.str k) = true then
            mdel cache
              ("get:" ++ Json.stringify (Json.obj [("name", Json.str k)]))
          else cache) =
        mdel cache (cacheKeyOf "get" (Json.obj [("name", Json.str k)]))
    rw [if_pos htru]
    rfl
  have hsetcache : (httpPath ⟨true, nst, ndata⟩ now "set"
      (Json.obj [("name", Json.str k), ("value", v)]) "POST" cache).cache =
      invalidateCache "set"
        (Json.obj [("name", Json.str k), ("value", v)]) cache := rfl
  have hsetnone : mget (httpPath ⟨true, nst, ndata⟩ now "set"
      (Json.obj [("name", Json.str k), ("value", v)]) "POST" cache).cache
      (cacheKeyOf "get" (Json.obj [("name", Json.str k)])) = none := by
    rw [hsetcache, hinv_set]
    exact mget_mdel_self hnd
  refine ⟨hsetnone, ?_, ?_⟩
  · intro hsl
    have hsplit := jsSplit_forget k hsl
    have hkn : keyNameOf (some k) (Json.obj []) = some (Json.str k) := by
      unfold keyNameOf
      show (if k = "" then jsField (Json.obj []) "name"
            else some (Json.str k)) = some (Json.str k)
      rw [if_neg hk]
    have hforget_inv : invalidateCache ("forget/" ++ k) (Json.obj []) cache =
        mdel cache (cacheKeyOf "get" (Json.obj [("name", Json.str k)])) := by
      rw [invalidateCache, hsplit]
      show (match keyNameOf (some k) (Json.obj []) with
            | some kn =>
                if jsTruthy kn = true then
                  mdel cache
                    ("get:" ++ Json.stringify (Json.obj [("name", kn)]))
                else cache
            | none => cache) =
          mdel cache (cacheKeyOf "get" (Json.obj [("name", Json.str k)]))
      rw [hkn]
      show (if jsTruthy (Json.str k) = true then
              mdel cache
                ("get:" ++ Json.stringify (Json.obj [("name", Json.str k)]))
            else cache) =
          mdel cache (cacheKeyOf "get" (Json.obj [("name", Json.str k)]))
      rw [if_pos htru]
      rfl
    have hfcache : (httpPath ⟨true, nst, ndata⟩ now ("forget/" ++ k)
        (Json.obj []) "DELETE" cache).cache =
        invalidateCache ("forget/" ++ k) (Json.obj []) cache := rfl
    rw [hfcache, hforget_inv]
    exact mget_mdel_self hnd
  · intro net2 now2
    have hhit : cacheHit (httpPath ⟨true, nst, ndata⟩ now "set"
        (Json.obj [("name", Json.str k), ("value", v)]) "POST" cache).cache
        now2 "get" (Json.obj [("name", Json.str k)]) "POST" = none := by
      unfold cacheHit
      rw [if_pos ⟨rfl, rfl⟩, hsetnone]
    exact httpPath_dispatched_of_miss hhit

def c5WBody : Json := Json.obj [("name", Json.str "mykey")]

def c5WCache : Cache := [(cacheKeyOf "get" c5WBody, ⟨Json.str "old", 0⟩)]

/-- Witness for the amended C5 at the concrete key mykey: both the set and
the forget drop the cached get entry. -/
theorem keyed_write_invalidates_get_witness :
    mget (httpPath ⟨true, 200, Json.null⟩ 100 "set"
        (Json.obj [("name", Json.str "mykey"), ("value", Json.str "n")])
        "POST" c5WCache).cache (cacheKeyOf "get" c5WBody) = none ∧
    mget (httpPath ⟨true, 200, Json.null⟩ 100 ("forget/" ++ "mykey")
        (Json.obj []) "DELETE" c5WCache).cache
      (cacheKeyOf "get" c5WBody) = none :=
  ⟨(keyed_write_invalidates_get "mykey" (Json.str "n") ⟨true, 200, Json.null⟩
      100 c5WCache (by decide) rfl (by simp [c5WCache])).1,
   (keyed_write_invalidates_get "mykey" (Json.str "n") ⟨true, 200, Json.null⟩
      100 c5WCache (by decide) rfl (by simp [c5WCache])).2.1 (by decide)⟩

/-- One entry of ShovWebSocket.pendingRequests (line 56): the result
continuation is modelled by effects keyed on the correlation id; command is
the value the timeout closure of line 254 captured, and hasTimer records
whether a timer handle is attached. -/
structure PendingInfo where
  command : String
  hasTimer : Bool

/-- Why a pending request rejects: the error envelope of the remote
service (new Error(message.error), line 178), the per-request timeout
(Request timeout for command, line 256), or the closing channel
(WebSocket connection closed, line 137). -/
inductive RejectReason where
  | appError (msg : Option String) : RejectReason
  | timeout (command : String) : RejectReason
  | connectionClosed : RejectReason

/-- The type discriminator of an inbound WebSocket envelope (line 31):
response, error, ping, connected or batch_response. -/
inductive MsgType where
  | response : MsgType
  | errorMsg : MsgType
  | ping : MsgType
  | connected : MsgType
  | batchResponse : MsgType

/-- An inbound WebSocketResponse envelope (lines 30-38). -/
structure WsMessage where
  type : MsgType
  id : Option String
  data : Json
  error : Option String
  timestamp : Nat

/-- The observable actions of the ShovWebSocket handlers: settling a
pending request, cancelling its timer, writing a frame to the socket,
emitting the disconnected event, closing the channel, starting a
connection attempt, or arming the reconnect timer. -/
inductive WsEffect where
  | resolve (id : String) (data : Json) : WsEffect
  | resolveBatch (id : String) (m : WsMessage) : WsEffect
  | reject (id : String) (reason : RejectReason) : WsEffect
  | cancelTimer (id : String) : WsEffect
  | sendFrame (frame : Json) : WsEffect
  | emitDisconnected (code : Nat) : WsEffect
  | closeChannel : WsEffect
  | startConnect : WsEffect
  | scheduleReconnectIn (delayMs : Nat) : WsEffect

/-- The mutable fields of ShovWebSocket (lines 45-60); wsReadyOpen models
this.ws?.readyState === WebSocket.OPEN. -/
structure WsState where
  isConnected : Bool
  isConnecting : Bool
  wsReadyOpen : Bool
  reconnectAttempts : Nat
  maxReconnectAttempts : Nat
  reconnectDelay : Nat
  maxReconnectDelay : Nat
  messageQueue : List Json
  pending : List (String × PendingInfo)
  lastPingTime : Nat
  keepAliveOn : Bool

/-- The constructor state (lines 49-60): attempts 0, max 10, delay 1000 ms,
max delay 30000 ms, empty queue and registry. -/
def initialWsState : WsState :=
  ⟨false, false, false, 0, 10, 1000, 30000, [], [], 0, false⟩

/-- ShovWebSocket.send (lines 235-239): write the frame only when the
socket is open, otherwise drop it silently. -/
def sendEffects (st : WsState) (frame : Json) : List WsEffect :=
  if st.wsReadyOpen then [.sendFrame frame] else []

/-- ShovWebSocket.handleMessage (lines 156-194).  A ping records the
server timestamp and answers with a pong stamped Date.now(); connected is
logged only; response and error envelopes settle the pending entry of
their id when one exists and are ignored otherwise (also when id is
absent); batch_response resolves the pending entry with the whole
envelope.  The source tests the five exclusive type values in sequence,
so the if chain is faithful. -/
def handleMessage (now : Nat) (m : WsMessage) (st : WsState) :
    WsState × List WsEffect :=
  match m.type with
  | .ping =>
      ({ st with lastPingTime := m.timestamp },
        sendEffects st
          (Json.obj [("type", Json.str "pong"), ("timestamp", Json.num now)]))
  | .connected => (st, [])
  | .response =>
      match m.id with
      | some mid =>
          match mget st.pending mid with
          | some p =>
              ({ st with pending := mdel st.pending mid },
                (if p.hasTimer then [WsEffect.cancelTimer mid] else []) ++
                  [WsEffect.resolve mid m.data])
          | none => (st, [])
      | none => (st, [])
  | .errorMsg =>
      match m.id with
      | some mid =>
          match mget st.pending mid with
          | some p =>
              ({ st with pending := mdel st.pending mid },
                (if p.hasTimer then [WsEffect.cancelTimer mid] else []) ++
                  [WsEffect.reject mid (.appError m.error)])
          | none => (st, [])
      | none => (st, [])
  | .batchResponse =>
      match m.id with
      | some mid =>
          match mget st.pending mid with
          | some p =>
              ({ st with pending := mdel st.pending mid },
                (if p.hasTimer then [WsEffect.cancelTimer mid] else []) ++
                  [WsEffect.resolveBatch mid m])
          | none => (st, [])
      | none => (st, [])

/-- The timeout callback armed on lines 254-257: delete the registry entry
for the id and reject with the timeout error.  When the entry is already
gone the promise has settled, so the reject is absorbed (at-most-once
settlement) and nothing is observable. -/
def fireTimeout (id : String) (st : WsState) : WsState × List WsEffect :=
  match mget st.pending id with
  | some p =>
      ({ st with pending := mdel st.pending id },
        [WsEffect.reject id (.timeout p.command)])
  | none => (st, [])

/-- ShovWebSocket.request, registration part (lines 250-272): store the
pending entry with its timer, then send the frame when connected or queue
it and start a connection attempt. -/
def registerRequest (id command : String) (body : Json) (st : WsState) :
    WsState × List WsEffect :=
  let frame : Json :=
    Json.obj [("id", Json.str id), ("command", Json.str command),
      ("body", body)]
  let st1 := { st with pending := mset st.pending id ⟨command, true⟩ }
  if st1.isConnected then (st1, sendEffects st1 frame)
  else ({ st1 with messageQueue := st1.messageQueue ++ [frame] },
    [WsEffect.startConnect])

/-- ShovWebSocket.scheduleReconnect (lines 217-226): bump the attempt
counter, then arm the reconnect timer for
min(reconnectDelay * 2 ^ (attempts - 1), maxReconnectDelay). -/
def scheduleReconnect (st : WsState) : WsState × WsEffect :=
  ({ st with reconnectAttempts := st.reconnectAttempts + 1 },
    .scheduleReconnectIn
      (min (st.reconnectDelay * 2 ^ (st.reconnectAttempts + 1 - 1))
        st.maxReconnectDelay))

/-- The loop of lines 135-138: clearTimeout and reject with the
connection-closed error, entry by entry. -/
def closeRejectEffects (pending : List (String × PendingInfo)) :
    List WsEffect :=
  pending.flatMap (fun kp =>
    (if kp.2.hasTimer then [WsEffect.cancelTimer kp.1] else []) ++
      [WsEffect.reject kp.1 .connectionClosed])

/-- Lines 130-139: connection flags dropped, keep-alive stopped, registry
cleared. -/
def closedState (st : WsState) : WsState :=
  { st with
    isConnected := false, isConnecting := false,
    keepAliveOn := false, pending := [] }

/-- The onclose handler (lines 129-147): drop the connection flags, stop
the keep-alive timer, cancel every pending timer and reject every pending
request with the connection-closed error, clear the registry, emit
disconnected, and schedule a reconnect attempt unless the close was the
intentional code 1000 or the attempt budget is exhausted. -/
def onClose (code : Nat) (st : WsState) : WsState × List WsEffect :=
  if code ≠ 1000 ∧ st.reconnectAttempts < st.maxReconnectAttempts then
    ((scheduleReconnect (closedState st)).1,
      closeRejectEffects st.pending ++ [WsEffect.emitDisconnected code] ++
        [(scheduleReconnect (closedState st)).2])
  else (closedState st,
    closeRejectEffects st.pending ++ [WsEffect.emitDisconnected code])

/-- The keep-alive interval period of line 207: 30000 ms. -/
def keepAliveCheckMs : Nat := 30000

/-- The heartbeat staleness bound of line 200: 60000 ms. -/
def pingTimeoutMs : Nat := 60000

/-- One tick of the keep-alive watchdog armed by startKeepAlive (lines
196-208), run every keepAliveCheckMs: on an open, connected channel with
no ping for more than pingTimeoutMs, force-close the socket and start a
new connection attempt. -/
def watchdogTick (now : Nat) (st : WsState) : List WsEffect :=
  if st.isConnected = true ∧ st.wsReadyOpen = true then
    if now - st.lastPingTime > pingTimeoutMs then
      [WsEffect.closeChannel, WsEffect.startConnect]
    else []
  else []

/-- C6: a pending WebSocket request whose timeout fires before any response
arrived is removed from the registry and its caller rejected with the
timeout error; and a response, error or batch_response envelope whose
correlation id is no longer registered (or that carries no id at all)
leaves the state untouched and produces no effect: it is ignored without
raising any error. -/
theorem timeout_then_late_response (st : WsState) (id : String)
    (p : PendingInfo) (hp : mget st.pending id = some p)
    (hnd : (st.pending.map Prod.fst).Nodup) :
    ((fireTimeout id st).1.pending = mdel st.pending id ∧
      mget (fireTimeout id st).1.pending id = none ∧
      (fireTimeout id st).2 =
        [WsEffect.reject id (.timeout p.command)]) ∧
    (∀ (st2 : WsState) (m : WsMessage) (now : Nat),
      (m.type = MsgType.response ∨ m.type = MsgType.errorMsg ∨
        m.type = MsgType.batchResponse) →
      (∀ mid, m.id = some mid → mget st2.pending mid = none) →
      handleMessage now m st2 = (st2, [])) := by
  constructor
  · refine ⟨?_, ?_, ?_⟩
    · unfold fireTimeout
      rw [hp]
    · unfold fireTimeout
      rw [hp]
      exact mget_mdel_self hnd
    · unfold fireTimeout
      rw [hp]
  · intro st2 m now htype hid
    obtain ⟨mt, mi, md, me, mts⟩ := m
    rcases htype with h | h | h <;> subst h <;>
      cases mi with
      | none => rfl
      | some mid => simp only [handleMessage, hid mid rfl]

def c6State : WsState :=
  { initialWsState with
    isConnected := true, wsReadyOpen := true,
    pending := [("id1", ⟨"get", true⟩)] }

/-- Witness for C6 at a concrete registry: the timeout rejects and empties
the entry, and a late response envelope for the same id is then ignored. -/
theorem timeout_then_late_response_witness :
    (fireTimeout "id1" c6State).2 =
        [WsEffect.reject "id1" (.timeout "get")] ∧
    handleMessage 7 ⟨MsgType.response, some "id1", Json.str "d", none, 5⟩
        (fireTimeout "id1" c6State).1 =
      ((fireTimeout "id1" c6State).1, []) := by
  have h := timeout_then_late_response c6State "id1" ⟨"get", true⟩
    (by rfl) (by simp [c6State, initialWsState])
  refine ⟨h.1.2.2, ?_⟩
  exact h.2 (fireTimeout "id1" c6State).1
    ⟨MsgType.response, some "id1", Json.str "d", none, 5⟩ 7 (Or.inl rfl)
    (fun mid hmid => by
      cases hmid
      exact h.1.2.1)

/-- C7: whatever the close code, the onclose handler leaves the registry
empty, and every pending request it held is rejected with the
connection-closed error, its timer cancelled when one was armed. -/
theorem close_rejects_all_pending (st : WsState) (code : Nat) :
    (onClose code st).1.pending = [] ∧
    (∀ id p, mget st.pending id = some p →
      WsEffect.reject id RejectReason.connectionClosed ∈
          (onClose code st).2 ∧
      (p.hasTimer = true →
        WsEffect.cancelTimer id ∈ (onClose code st).2)) := by
  constructor
  · unfold onClose
    split
    · rfl
    · rfl
  · intro id p hp
    have hmem := mget_mem hp
    have hrej : WsEffect.reject id RejectReason.connectionClosed ∈
        closeRejectEffects st.pending := by
      unfold closeRejectEffects
      rw [List.mem_flatMap]
      exact ⟨(id, p), hmem, by simp⟩
    have hcan : p.hasTimer = true →
        WsEffect.cancelTimer id ∈ closeRejectEffects st.pending := by
      intro ht
      unfold closeRejectEffects
      rw [List.mem_flatMap]
      exact ⟨(id, p), hmem, by simp [ht]⟩
    unfold onClose
    split
    · constructor
      · exact List.mem_append_left _ (List.mem_append_left _ hrej)
      · intro ht
        exact List.mem_append_left _ (List.mem_append_left _ (hcan ht))
    · constructor
      · exact List.mem_append_left _ hrej
      · intro ht
        exact List.mem_append_left _ (hcan ht)

def c7State : WsState :=
  { initialWsState with
    isConnected := true,
    pending := [("a", ⟨"get", true⟩), ("b", ⟨"set", true⟩)] }

/-- Witness for C7 at a two-entry registry and close code 1006. -/
theorem close_rejects_all_pending_witness :
    (onClose 1006 c7State).1.pending = [] ∧
    WsEffect.reject "a" RejectReason.connectionClosed ∈
      (onClose 1006 c7State).2 ∧
    WsEffect.cancelTimer "b" ∈ (onClose 1006 c7State).2 :=
  ⟨(close_rejects_all_pending c7State 1006).1,
   ((close_rejects_all_pending c7State 1006).2 "a" ⟨"get", true⟩ rfl).1,
   ((close_rejects_all_pending c7State 1006).2 "b" ⟨"set", true⟩ rfl).2 rfl⟩

theorem scheduleReconnectIn_not_mem_base (pending : List (String × PendingInfo))
    (code : Nat) (d : Nat) :
    WsEffect.scheduleReconnectIn d ∉
      closeRejectEffects pending ++ [WsEffect.emitDisconnected code] := by
  intro hmem
  rcases List.mem_append.mp hmem with h | h
  · unfold closeRejectEffects at h
    rw [List.mem_flatMap] at h
    obtain ⟨kp, _, hin⟩ := h
    rcases List.mem_append.mp hin with h2 | h2
    · split at h2 <;> simp at h2
    · simp at h2
  · simp at h

/-- C8: after an unintentional close (any code other than 1000) with the
attempt counter a still below the maximum of 10, attempt n = a + 1 is
scheduled after min(1000 * 2 ^ (n - 1), 30000) ms; once the counter has
reached the maximum no reconnect is scheduled, and the intentional close
code 1000 never schedules one. -/
theorem reconnect_backoff (st : WsState) (code : Nat)
    (hdelay : st.reconnectDelay = 1000)
    (hmaxd : st.maxReconnectDelay = 30000)
    (hmax : st.maxReconnectAttempts = 10) :
    (code ≠ 1000 → st.reconnectAttempts < 10 →
      (onClose code st).1.reconnectAttempts = st.reconnectAttempts + 1 ∧
      WsEffect.scheduleReconnectIn
          (min (1000 * 2 ^ (st.reconnectAttempts + 1 - 1)) 30000) ∈
        (onClose code st).2) ∧
    (st.reconnectAttempts ≥ 10 →
      ∀ d, WsEffect.scheduleReconnectIn d ∉ (onClose code st).2) ∧
    (code = 1000 →
      ∀ d, WsEffect.scheduleReconnectIn d ∉ (onClose code st).2) := by
  refine ⟨?_, ?_, ?_⟩
  · intro hcode hlt
    unfold onClose
    rw [if_pos ⟨hcode, hmax ▸ hlt⟩]
    constructor
    · rfl
    · apply List.mem_append_right
      unfold scheduleReconnect closedState
      simp only [hdelay, hmaxd]
      simp
  · intro hge d
    unfold onClose
    rw [if_neg (fun hc => absurd hc.2 (by rw [hmax]; omega))]
    exact scheduleReconnectIn_not_mem_base st.pending code d
  · intro hcode d
    unfold onClose
    rw [if_neg (fun hc => absurd hcode hc.1)]
    exact scheduleReconnectIn_not_mem_base st.pending code d

def c8State : WsState := { initialWsState with reconnectAttempts := 4 }

/-- Witness for C8: the fifth reconnect attempt after an abnormal close is
scheduled after min(1000 * 2 ^ 4, 30000) = 16000 ms, and an intentional
close schedules nothing. -/
theorem reconnect_backoff_witness :
    ((onClose 1006 c8State).1.reconnectAttempts = 5 ∧
      WsEffect.scheduleReconnectIn 16000 ∈ (onClose 1006 c8State).2) ∧
    (∀ d, WsEffect.scheduleReconnectIn d ∉ (onClose 1000 c8State).2) := by
  have h1 := (reconnect_backoff c8State 1006 rfl rfl rfl).1
    (by decide) (by decide)
  have h2 := (reconnect_backoff c8State 1000 rfl rfl rfl).2.2 rfl
  exact ⟨⟨h1.1, h1.2⟩, h2⟩

/-- C9: an inbound ping records the heartbeat timestamp carried by the
envelope and, on an open socket, answers with a pong stamped with the
current time; the watchdog armed every keepAliveCheckMs = 30000 ms
force-closes the channel and starts a reconnection attempt whenever an
open, connected channel has seen no heartbeat for more than
pingTimeoutMs = 60000 ms, and does nothing while the heartbeat is within
the window. -/
theorem heartbeat_and_watchdog (st : WsState) (m : WsMessage) (now : Nat)
    (hm : m.type = MsgType.ping) :
    ((handleMessage now m st).1 = { st with lastPingTime := m.timestamp } ∧
      (st.wsReadyOpen = true →
        (handleMessage now m st).2 =
          [WsEffect.sendFrame (Json.obj
            [("type", Json.str "pong"), ("timestamp", Json.num now)])])) ∧
    keepAliveCheckMs = 30000 ∧
    (st.isConnected = true → st.wsReadyOpen = true →
      now - st.lastPingTime > pingTimeoutMs →
      watchdogTick now st =
        [WsEffect.closeChannel, WsEffect.startConnect]) ∧
    (now - st.lastPingTime ≤ pingTimeoutMs → watchdogTick now st = []) := by
  refine ⟨⟨?_, ?_⟩, rfl, ?_, ?_⟩
  · unfold handleMessage
    rw [hm]
  · intro hopen
    unfold handleMessage
    rw [hm]
    show sendEffects st _ = _
    unfold sendEffects
    rw [if_pos hopen]
  · intro hconn hopen hstale
    unfold watchdogTick
    rw [if_pos ⟨hconn, hopen⟩, if_pos hstale]
  · intro hfresh
    unfold watchdogTick
    split
    · rw [if_neg (by omega)]
    · rfl

def c9State : WsState :=
  { initialWsState with
    isConnected := true, wsReadyOpen := true, lastPingTime := 100 }

/-- Witness for C9 at a concrete state: the ping envelope updates the
heartbeat and is answered, and a tick 70000 ms after the last heartbeat
closes and reconnects while a tick within the window does nothing. -/
theorem heartbeat_and_watchdog_witness :
    (handleMessage 220 ⟨MsgType.ping, none, Json.null, none, 200⟩
        c9State).1 = { c9State with lastPingTime := 200 } ∧
    watchdogTick 70100 c9State =
      [WsEffect.closeChannel, WsEffect.startConnect] ∧
    watchdogTick 50100 c9State = [] := by
  have h := heartbeat_and_watchdog c9State
    ⟨MsgType.ping, none, Json.null, none, 200⟩ 220 rfl
  refine ⟨h.1.1, ?_, ?_⟩
  · exact (heartbeat_and_watchdog c9State
      ⟨MsgType.ping, none, Json.null, none, 200⟩ 70100 rfl).2.2.1
      rfl rfl (by decide)
  · exact (heartbeat_and_watchdog c9State
      ⟨MsgType.ping, none, Json.null, none, 200⟩ 50100 rfl).2.2.2
      (by decide)

def c3State : WsState :=
  { initialWsState with
    isConnected := true, wsReadyOpen := true,
    pending := [("id1", ⟨"get", true⟩)] }

def c3ErrorEnvelope : WsMessage :=
  ⟨MsgType.errorMsg, some "id1", Json.null, some "Key not found", 9⟩

/-- C3 counterexample: an application-level error envelope from the remote
service (type error, handled on lines 171-182) rejects the pending
WebSocket request with that error, and Shov.request then catches the
rejection and dispatches the same logical request over the HTTP transport
(the catch of lines 379-384 does not distinguish application errors from
transport failures): the application error is retried on another
transport, and the WebSocket rejection carries no status code. -/
theorem ws_app_error_is_retried_on_http :
    handleMessage 10 c3ErrorEnvelope c3State =
      ({ c3State with pending := [] },
        [WsEffect.cancelTimer "id1",
          WsEffect.reject "id1" (.appError (some "Key not found"))]) ∧
    (shovRequest (some (.err "Key not found")) ⟨true, 200, Json.null⟩ 20
        "get" (Json.obj [("name", Json.str "k")]) "POST"
        []).httpDispatched = true := by
  constructor
  · rfl
  · rfl

/-- C3 (amended): over the HTTP path a non-success response raises a
ShovError carrying the remote message verbatim together with the remote
status code, the cache is untouched, and HTTP is the last transport, so
the error is terminal for the request; over the WebSocket path, however,
any rejection — the application error envelope of the remote service
included — makes Shov.request fall through to the HTTP transport, so only
HTTP-delivered application errors are never retried (see the
counterexample for the WebSocket retry). -/
theorem app_error_surfacing (net : NetResult) (now : Nat) (command : String)
    (body : Json) (method : String) (cache : Cache) (e : String)
    (hok : net.ok = false)
    (hmiss : cacheHit cache now command body method = none) :
    httpPath net now command body method cache =
      ⟨.err (errorMessageOf net.data) (some net.status), cache, true⟩ ∧
    shovRequest (some (.err e)) net now command body method cache =
      httpPath net now command body method cache := by
  constructor
  · unfold httpPath
    split
    · rename_i e0 heq
      rw [hmiss] at heq
      cases heq
    · rw [if_pos hok]
  · rfl

/-- Witness for the amended C3: a 404 with a message surfaces verbatim and
with the status, over the HTTP path. -/
theorem app_error_surfacing_witness :
    httpPath ⟨false, 404, Json.obj [("error", Json.str "Key not found")]⟩
        5 "get" (Json.obj [("name", Json.str "k")]) "POST" [] =
      ⟨.err "Key not found" (some 404), [], true⟩ :=
  (app_error_surfacing
      ⟨false, 404, Json.obj [("error", Json.str "Key not found")]⟩ 5 "get"
      (Json.obj [("name", Json.str "k")]) "POST" [] "x" rfl rfl).1

/-- Which transport an in-flight deduplicated operation runs on. -/
inductive OpKind where
  | ws : OpKind
  | http : OpKind
deriving DecidableEq

/-- The settled outcome of an in-flight operation: resolved data or the
message of the rejection. -/
inductive OpResult where
  | ok (data : Json) : OpResult
  | err (msg : String) : OpResult

def OpResult.isErr : OpResult → Bool
  | .ok _ => false
  | .err _ => true

/-- One underlying operation of the dedup layer: its transport, the caller
that dispatched it (the owner, whose request created the promise stored in
pendingRequests), and its outcome once settled (none while in flight). -/
structure OpRec where
  kind : OpKind
  owner : Nat
  result : Option OpResult

/-- What a caller of Shov.request holding the shared dedup key is doing:
not yet started, awaiting operation op (as owner or as an attached
duplicate), or returned with the result of op. -/
inductive CallerSt where
  | idle : CallerSt
  | waiting (op : Nat) (owner : Bool) : CallerSt
  | done (op : Nat) (r : OpResult) : CallerSt

/-- The events of the dedup machine, all for one fixed request key
(command : method : JSON.stringify(body), line 365): a caller enters
Shov.request, an operation settles, a waiting caller resumes with the
settled result. -/
inductive DedupEvent where
  | start (i : Nat) : DedupEvent
  | settle (op : Nat) (r : OpResult) : DedupEvent
  | deliver (i : Nat) : DedupEvent

def DedupEvent.isStart : DedupEvent → Bool
  | .start _ => true
  | _ => false

/-- The dedup state for one request key: whether a wsClient is configured,
the number of operations dispatched so far (operation ids are dispatch
order), the table of operations, the callers, and pendingRequests
restricted to this key (the operation whose promise the map holds). -/
structure DedupState where
  wsEnabled : Bool
  nOps : Nat
  op : Nat → OpRec
  caller : Nat → CallerSt
  pmap : Option Nat

def dedupInit (wsEnabled : Bool) : DedupState :=
  ⟨wsEnabled, 0, fun _ => ⟨.http, 0, none⟩, fun _ => .idle, none⟩

/-- Does this caller wait on operation o as its owner? -/
def waitsAsOwner (c : CallerSt) (o : Nat) : Bool :=
  match c with
  | .waiting o2 b => if o2 = o then b else false
  | _ => false

/-- Settlement without fallback: record the result and drop the map entry
when it is this operation (the finally of lines 456-459 deletes the key
before the promise settles; on the WebSocket path the deletes of lines 377
and 380 run in the first continuation after settlement, before any other
code can observe the map). -/
def settlePlain (s : DedupState) (o : Nat) (r : OpResult) : DedupState :=
  { s with
    op := fun j =>
      if j = o then ⟨(s.op o).kind, (s.op o).owner, some r⟩ else s.op j,
    pmap := if s.pmap = some o then none else s.pmap }

/-- Settlement of a failed WebSocket operation whose owner still awaits it:
the owner catch (lines 379-384) deletes the map entry and falls through to
HTTP, synchronously dispatching a new operation and storing its promise in
the map (line 462); attached callers stay on the failed operation.  No
other code runs between the rejection and this continuation, so the whole
transition is one atomic step. -/
def settleWsFallback (s : DedupState) (o : Nat) (r : OpResult) : DedupState :=
  { s with
    nOps := s.nOps + 1,
    op := fun j =>
      if j = s.nOps then ⟨.http, (s.op o).owner, none⟩
      else if j = o then ⟨(s.op o).kind, (s.op o).owner, some r⟩
      else s.op j,
    pmap := some s.nOps,
    caller := fun j =>
      if j = (s.op o).owner then .waiting s.nOps true else s.caller j }

/-- One step of the deduplication behaviour of Shov.request (lines 363-384
and 446-463), under the single-threaded JavaScript event loop: statements
between two awaits run without interleaving.
start i: the caller checks pendingRequests (line 366); a present entry is
awaited as an attached duplicate (line 368), otherwise the caller
dispatches a new operation on the WebSocket when configured, else on HTTP,
and stores its promise (lines 374-375 / 446-462).
settle o r: the operation settles; the map entry is removed atomically
(see settlePlain), except that a failed WebSocket operation with a live
owner atomically re-dispatches on HTTP (see settleWsFallback).
deliver i: a caller awaiting a settled operation resumes and returns its
result.  Events that are not enabled (settling twice, starting twice,
delivering before settlement) do not occur in the source; the step is none
there. -/
def dedupStep (s : DedupState) : DedupEvent → Option DedupState
  | .start i =>
      match s.caller i with
      | .idle =>
          match s.pmap with
          | some o =>
              some { s with
                caller := fun j =>
                  if j = i then .waiting o false else s.caller j }
          | none =>
              some { s with
                nOps := s.nOps + 1,
                op := fun j =>
                  if j = s.nOps then
                    ⟨if s.wsEnabled then .ws else .http, i, none⟩
                  else s.op j,
                pmap := some s.nOps,
                caller := fun j =>
                  if j = i then .waiting s.nOps true else s.caller j }
      | _ => none
  | .settle o r =>
      if o < s.nOps then
        match (s.op o).result with
        | none =>
            if (s.op o).kind = OpKind.ws ∧ r.isErr = true ∧
                waitsAsOwner (s.caller (s.op o).owner) o = true then
              some (settleWsFallback s o r)
            else some (settlePlain s o r)
        | some _ => none
      else none
  | .deliver i =>
      match s.caller i with
      | .waiting o _ =>
          match (s.op o).result with
          | some r =>
              some { s with
                caller := fun j => if j = i then .done o r else s.caller j }
          | none => none
      | _ => none

def dedupRun : DedupState → List DedupEvent → Option DedupState
  | s, [] => some s
  | s, e :: tr =>
      match dedupStep s e with
      | some s2 => dedupRun s2 tr
      | none => none

/-- Two callers issue the same request concurrently while the WebSocket is
configured; the shared WebSocket operation fails, the owner falls back to
HTTP and succeeds, the attached caller resumes with the WebSocket error. -/
def c2Trace : List DedupEvent :=
  [DedupEvent.start 0, DedupEvent.start 1,
    DedupEvent.settle 0 (OpResult.err "socket hang up"),
    DedupEvent.settle 1 (OpResult.ok (Json.str "v")),
    DedupEvent.deliver 0, DedupEvent.deliver 1]

/-- C2 counterexample: two concurrently issued identical requests (both
starts precede every settlement) end with two dispatched operations and
different outcomes — the owner got the HTTP success, the attached caller
the WebSocket rejection — refuting the claim that exactly one operation is
dispatched and every caller receives the same result. -/
theorem dedup_shared_ws_failure_diverges :
    (dedupRun (dedupInit true) c2Trace).map
        (fun s => (s.nOps, s.caller 0, s.caller 1)) =
      some (2, CallerSt.done 1 (OpResult.ok (Json.str "v")),
        CallerSt.done 0 (OpResult.err "socket hang up")) := rfl

/-- The core invariant of the dedup machine: the map only ever holds a
dispatched, still unsettled operation; a finished caller carries the
settled result of a dispatched operation; a waiting caller waits on a
dispatched operation. -/
def DInv (s : DedupState) : Prop :=
  (∀ o, s.pmap = some o → o < s.nOps ∧ (s.op o).result = none) ∧
  (∀ i o r, s.caller i = CallerSt.done o r →
    o < s.nOps ∧ (s.op o).result = some r) ∧
  (∀ i o b, s.caller i = CallerSt.waiting o b → o < s.nOps)

theorem dInv_init (cfg : Bool) : DInv (dedupInit cfg) := by
  refine ⟨fun o h => ?_, fun i o r h => ?_, fun i o b h => ?_⟩
  · cases h
  · simp [dedupInit] at h
  · simp [dedupInit] at h

theorem dedupStep_dInv {s : DedupState} {e : DedupEvent} {s2 : DedupState}
    (hinv : DInv s) (h : dedupStep s e = some s2) : DInv s2 := by
  obtain ⟨hA, hB, hC⟩ := hinv
  cases e with
  | start i =>
      simp only [dedupStep] at h
      cases hci : s.caller i with
      | idle =>
          rw [hci] at h
          cases hpm : s.pmap with
          | some o =>
              rw [hpm] at h
              injection h with h
              subst h
              refine ⟨?_, ?_, ?_⟩
              · intro o2 hp2
                have hp3 : (some o : Option Nat) = some o2 := hp2
                injection hp3 with hp3
                subst hp3
                exact hA o hpm
              · intro i2 o2 r2 hd
                have hd2 : (if i2 = i then CallerSt.waiting o false
                    else s.caller i2) = CallerSt.done o2 r2 := hd
                split at hd2
                · cases hd2
                · exact hB i2 o2 r2 hd2
              · intro i2 o2 b2 hw
                have hw2 : (if i2 = i then CallerSt.waiting o false
                    else s.caller i2) = CallerSt.waiting o2 b2 := hw
                split at hw2
                · injection hw2 with h1 h2
                  subst h1
                  exact (hA o hpm).1
                · exact hC i2 o2 b2 hw2
          | none =>
              rw [hpm] at h
              injection h with h
              subst h
              refine ⟨?_, ?_, ?_⟩
              · intro o2 hp2
                have hp3 : (some s.nOps : Option Nat) = some o2 := hp2
                injection hp3 with hp3
                subst hp3
                constructor
                · exact Nat.lt_succ_self _
                · show (if s.nOps = s.nOps then
                      (⟨if s.wsEnabled then OpKind.ws else OpKind.http, i,
                        none⟩ : OpRec)
                    else s.op s.nOps).result = none
                  rw [if_pos rfl]
              · intro i2 o2 r2 hd
                have hd2 : (if i2 = i then CallerSt.waiting s.nOps true
                    else s.caller i2) = CallerSt.done o2 r2 := hd
                split at hd2
                · cases hd2
                · have hold := hB i2 o2 r2 hd2
                  have hne : o2 ≠ s.nOps := Nat.ne_of_lt hold.1
                  constructor
                  · exact Nat.lt_succ_of_lt hold.1
                  · show (if o2 = s.nOps then
                        (⟨if s.wsEnabled then OpKind.ws else OpKind.http, i,
                          none⟩ : OpRec)
                      else s.op o2).result = some r2
                    rw [if_neg hne]
                    exact hold.2
              · intro i2 o2 b2 hw
                have hw2 : (if i2 = i then CallerSt.waiting s.nOps true
                    else s.caller i2) = CallerSt.waiting o2 b2 := hw
                split at hw2
                · injection hw2 with h1 h2
                  subst h1
                  exact Nat.lt_succ_self _
                · exact Nat.lt_succ_of_lt (hC i2 o2 b2 hw2)
      | waiting o3 b3 =>
          rw [hci] at h
          cases h
      | done o3 r3 =>
          rw [hci] at h
          cases h
  | settle o r =>
      simp only [dedupStep] at h
      by_cases ho : o < s.nOps
      · rw [if_pos ho] at h
        cases hres : (s.op o).result with
        | some r0 =>
            rw [hres] at h
            cases h
        | none =>
            rw [hres] at h
            have h2 : (if (s.op o).kind = OpKind.ws ∧ r.isErr = true ∧
                waitsAsOwner (s.caller (s.op o).owner) o = true then
                some (settleWsFallback s o r)
              else some (settlePlain s o r)) = some s2 := h
            clear h
            split at h2
            · -- WebSocket failure with live owner: fallback dispatch
              injection h2 with h2
              subst h2
              unfold settleWsFallback
              refine ⟨?_, ?_, ?_⟩
              · intro o2 hp2
                have hp3 : (some s.nOps : Option Nat) = some o2 := hp2
                injection hp3 with hp3
                subst hp3
                constructor
                · exact Nat.lt_succ_self _
                · show (if s.nOps = s.nOps then
                      (⟨OpKind.http, (s.op o).owner, none⟩ : OpRec)
                    else if s.nOps = o then
                      ⟨(s.op o).kind, (s.op o).owner, some r⟩
                    else s.op s.nOps).result = none
                  rw [if_pos rfl]
              · intro i2 o2 r2 hd
                have hd2 : (if i2 = (s.op o).owner then
                    CallerSt.waiting s.nOps true
                    else s.caller i2) = CallerSt.done o2 r2 := hd
                split at hd2
                · cases hd2
                · have hold := hB i2 o2 r2 hd2
                  have hne2 : o2 ≠ s.nOps := Nat.ne_of_lt hold.1
                  have hneo : o2 ≠ o := by
                    intro hc
                    subst hc
                    rw [hres] at hold
                    cases hold.2
                  constructor
                  · exact Nat.lt_succ_of_lt hold.1
                  · show (if o2 = s.nOps then
                        (⟨OpKind.http, (s.op o).owner, none⟩ : OpRec)
                      else if o2 = o then
                        ⟨(s.op o).kind, (s.op o).owner, some r⟩
                      else s.op o2).result = some r2
                    rw [if_neg hne2, if_neg hneo]
                    exact hold.2
              · intro i2 o2 b2 hw
                have hw2 : (if i2 = (s.op o).owner then
                    CallerSt.waiting s.nOps true
                    else s.caller i2) = CallerSt.waiting o2 b2 := hw
                split at hw2
                · injection hw2 with h1 h2
                  subst h1
                  exact Nat.lt_succ_self _
                · exact Nat.lt_succ_of_lt (hC i2 o2 b2 hw2)
            · injection h2 with h2
              subst h2
              unfold settlePlain
              refine ⟨?_, ?_, ?_⟩
              · intro o2 hp2
                have hp3 : (if s.pmap = some o then none else s.pmap) =
                    some o2 := hp2
                split at hp3
                · cases hp3
                · rename_i hpo
                  have hold := hA o2 hp3
                  have hneo : o2 ≠ o := by
                    intro hc
                    subst hc
                    exact hpo hp3
                  constructor
                  · exact hold.1
                  · show (if o2 = o then
                        (⟨(s.op o).kind, (s.op o).owner, some r⟩ : OpRec)
                      else s.op o2).result = none
                    rw [if_neg hneo]
                    exact hold.2
              · intro i2 o2 r2 hd
                have hd2 : s.caller i2 = CallerSt.done o2 r2 := hd
                have hold := hB i2 o2 r2 hd2
                have hneo : o2 ≠ o := by
                  intro hc
                  subst hc
                  rw [hres] at hold
                  cases hold.2
                constructor
                · exact hold.1
                · show (if o2 = o then
                      (⟨(s.op o).kind, (s.op o).owner, some r⟩ : OpRec)
                    else s.op o2).result = some r2
                  rw [if_neg hneo]
                  exact hold.2
              · intro i2 o2 b2 hw
                exact hC i2 o2 b2 hw
      · rw [if_neg ho] at h
        cases h
  | deliver i =>
      simp only [dedupStep] at h
      cases hci : s.caller i with
      | idle =>
          rw [hci] at h
          cases h
      | done o3 r3 =>
          rw [hci] at h
          cases h
      | waiting o3 b3 =>
          rw [hci] at h
          have h2 : (match (s.op o3).result with
              | some r => some { s with caller := fun j =>
                  if j = i then CallerSt.done o3 r else s.caller j }
              | none => (none : Option DedupState)) = some s2 := h
          clear h
          cases hres : (s.op o3).result with
          | none =>
              rw [hres] at h2
              cases h2
          | some r0 =>
              rw [hres] at h2
              injection h2 with h2
              subst h2
              refine ⟨fun o2 hp2 => hA o2 hp2, ?_, ?_⟩
              · intro i2 o2 r2 hd
                have hd2 : (if i2 = i then CallerSt.done o3 r0
                    else s.caller i2) = CallerSt.done o2 r2 := hd
                split at hd2
                · injection hd2 with h1 h2
                  subst h1
                  subst h2
                  exact ⟨hC i o3 b3 hci, hres⟩
                · exact hB i2 o2 r2 hd2
              · intro i2 o2 b2 hw
                have hw2 : (if i2 = i then CallerSt.done o3 r0
                    else s.caller i2) = CallerSt.waiting o2 b2 := hw
                split at hw2
                · cases hw2
                · exact hC i2 o2 b2 hw2

theorem dedupRun_dInv :
    ∀ (tr : List DedupEvent) (s s2 : DedupState), DInv s →
      dedupRun s tr = some s2 → DInv s2 := by
  intro tr
  induction tr with
  | nil =>
      intro s s2 hinv h
      injection h with h
      subst h
      exact hinv
  | cons e tr ih =>
      intro s s2 hinv h
      simp only [dedupRun] at h
      cases hstep : dedupStep s e with
      | none =>
          rw [hstep] at h
          cases h
      | some s1 =>
          rw [hstep] at h
          exact ih s1 s2 (dedupStep_dInv hinv hstep) h

/-- No caller has entered yet and nothing is dispatched. -/
def InitLike (s : DedupState) : Prop :=
  s.nOps = 0 ∧ s.pmap = none ∧ (∀ i, s.caller i = CallerSt.idle)

/-- Exactly one operation has been dispatched, it is still in flight and
in the map, and every non-idle caller waits on it. -/
def OnlyOne (s : DedupState) : Prop :=
  s.nOps = 1 ∧ s.pmap = some 0 ∧ (s.op 0).result = none ∧
  (∀ i, s.caller i = CallerSt.idle ∨
    ∃ b, s.caller i = CallerSt.waiting 0 b)

theorem dedupStep_start_phase {s s2 : DedupState} {i : Nat}
    (hp : InitLike s ∨ OnlyOne s)
    (h : dedupStep s (DedupEvent.start i) = some s2) : OnlyOne s2 := by
  simp only [dedupStep] at h
  rcases hp with ⟨h0, hpm, hcall⟩ | ⟨h1, hpm, hres, hcall⟩
  · rw [hcall i, hpm] at h
    injection h with h
    subst h
    refine ⟨?_, ?_, ?_, ?_⟩
    · show s.nOps + 1 = 1
      omega
    · show (some s.nOps : Option Nat) = some 0
      rw [h0]
    · show (if (0 : Nat) = s.nOps then
          (⟨if s.wsEnabled then OpKind.ws else OpKind.http, i, none⟩ : OpRec)
        else s.op 0).result = none
      rw [if_pos h0.symm]
    · intro j
      by_cases hj : j = i
      · refine Or.inr ⟨true, ?_⟩
        show (if j = i then CallerSt.waiting s.nOps true else s.caller j) =
          CallerSt.waiting 0 true
        rw [if_pos hj, h0]
      · refine Or.inl ?_
        show (if j = i then CallerSt.waiting s.nOps true else s.caller j) =
          CallerSt.idle
        rw [if_neg hj]
        exact hcall j
  · rcases hcall i with hidle | ⟨b, hw⟩
    · rw [hidle, hpm] at h
      injection h with h
      subst h
      refine ⟨h1, rfl, hres, ?_⟩
      intro j
      by_cases hj : j = i
      · refine Or.inr ⟨false, ?_⟩
        show (if j = i then CallerSt.waiting 0 false else s.caller j) =
          CallerSt.waiting 0 false
        rw [if_pos hj]
      · rcases hcall j with hj2 | ⟨b2, hj2⟩
        · refine Or.inl ?_
          show (if j = i then CallerSt.waiting 0 false else s.caller j) =
            CallerSt.idle
          rw [if_neg hj]
          exact hj2
        · refine Or.inr ⟨b2, ?_⟩
          show (if j = i then CallerSt.waiting 0 false else s.caller j) =
            CallerSt.waiting 0 b2
          rw [if_neg hj]
          exact hj2
    · rw [hw] at h
      cases h

theorem dedupRun_starts :
    ∀ (tr : List DedupEvent) (s s2 : DedupState),
      (∀ e ∈ tr, e.isStart = true) → (InitLike s ∨ OnlyOne s) →
      dedupRun s tr = some s2 →
      (InitLike s2 ∨ OnlyOne s2) ∧ (tr ≠ [] → OnlyOne s2) := by
  intro tr
  induction tr with
  | nil =>
      intro s s2 _ hp h
      injection h with h
      subst h
      exact ⟨hp, fun hc => absurd rfl hc⟩
  | cons e tr ih =>
      intro s s2 hst hp h
      simp only [dedupRun] at h
      cases hstep : dedupStep s e with
      | none =>
          rw [hstep] at h
          cases h
      | some s1 =>
          rw [hstep] at h
          have he := hst e (List.mem_cons_self e tr)
          cases e with
          | start i =>
              have h1 : OnlyOne s1 := dedupStep_start_phase hp hstep
              have hrest := ih s1 s2
                (fun e2 he2 => hst e2 (List.mem_cons_of_mem _ he2))
                (Or.inr h1) h
              refine ⟨hrest.1, fun _ => ?_⟩
              cases htr : tr with
              | nil =>
                  subst htr
                  injection h with h
                  subst h
                  exact h1
              | cons e2 tr2 =>
                  subst htr
                  exact hrest.2 (by simp)
          | settle o r => cases he
          | deliver i => cases he

/-- With no WebSocket configured every dispatched operation is HTTP. -/
def KInv (s : DedupState) : Prop :=
  s.wsEnabled = false → ∀ o, (s.op o).kind = OpKind.http

theorem dedupStep_frame {s : DedupState} {e : DedupEvent} {s2 : DedupState}
    (h : dedupStep s e = some s2) :
    s2.wsEnabled = s.wsEnabled ∧ (KInv s → KInv s2) ∧
    (KInv s →
      (∀ o m, e = DedupEvent.settle o (OpResult.err m) →
        s.wsEnabled = false) →
      e.isStart = false → s2.nOps = s.nOps) := by
  cases e with
  | start i =>
      simp only [dedupStep] at h
      cases hci : s.caller i with
      | idle =>
          rw [hci] at h
          cases hpm : s.pmap with
          | some o =>
              rw [hpm] at h
              injection h with h
              subst h
              exact ⟨rfl, fun hk => hk, fun _ _ hf => Bool.noConfusion hf⟩
          | none =>
              rw [hpm] at h
              injection h with h
              subst h
              refine ⟨rfl, ?_, fun _ _ hf => Bool.noConfusion hf⟩
              intro hk hw o
              have hw2 : s.wsEnabled = false := hw
              show (if o = s.nOps then
                  (⟨if s.wsEnabled then OpKind.ws else OpKind.http, i,
                    none⟩ : OpRec)
                else s.op o).kind = OpKind.http
              by_cases ho : o = s.nOps
              · rw [if_pos ho]
                show (if s.wsEnabled then OpKind.ws else OpKind.http) =
                  OpKind.http
                rw [hw2]
                rfl
              · rw [if_neg ho]
                exact hk hw2 o
      | waiting o3 b3 =>
          rw [hci] at h
          cases h
      | done o3 r3 =>
          rw [hci] at h
          cases h
  | settle o r =>
      simp only [dedupStep] at h
      by_cases ho : o < s.nOps
      · rw [if_pos ho] at h
        cases hres : (s.op o).result with
        | some r0 =>
            rw [hres] at h
            cases h
        | none =>
            rw [hres] at h
            have h2 : (if (s.op o).kind = OpKind.ws ∧ r.isErr = true ∧
                waitsAsOwner (s.caller (s.op o).owner) o = true then
                some (settleWsFallback s o r)
              else some (settlePlain s o r)) = some s2 := h
            clear h
            split at h2
            · rename_i hcond
              injection h2 with h2
              subst h2
              unfold settleWsFallback
              refine ⟨rfl, ?_, ?_⟩
              · intro hk hw j
                show (if j = s.nOps then
                    (⟨OpKind.http, (s.op o).owner, none⟩ : OpRec)
                  else if j = o then
                    ⟨(s.op o).kind, (s.op o).owner, some r⟩
                  else s.op j).kind = OpKind.http
                by_cases hj : j = s.nOps
                · rw [if_pos hj]
                · rw [if_neg hj]
                  by_cases hjo : j = o
                  · rw [if_pos hjo]
                    exact hk hw o
                  · rw [if_neg hjo]
                    exact hk hw j
              · intro hk hsafe _
                obtain ⟨m, hm⟩ : ∃ m, r = OpResult.err m := by
                  cases r with
                  | ok d => cases hcond.2.1
                  | err m => exact ⟨m, rfl⟩
                have hw := hsafe o m (by rw [hm])
                have := hk hw o
                rw [this] at hcond
                cases hcond.1
            · injection h2 with h2
              subst h2
              unfold settlePlain
              refine ⟨rfl, ?_, fun _ _ _ => rfl⟩
              intro hk hw j
              show (if j = o then
                  (⟨(s.op o).kind, (s.op o).owner, some r⟩ : OpRec)
                else s.op j).kind = OpKind.http
              by_cases hjo : j = o
              · rw [if_pos hjo]
                exact hk hw o
              · rw [if_neg hjo]
                exact hk hw j
      · rw [if_neg ho] at h
        cases h
  | deliver i =>
      simp only [dedupStep] at h
      cases hci : s.caller i with
      | idle =>
          rw [hci] at h
          cases h
      | done o3 r3 =>
          rw [hci] at h
          cases h
      | waiting o3 b3 =>
          rw [hci] at h
          have h2 : (match (s.op o3).result with
              | some r => some { s with caller := fun j =>
                  if j = i then CallerSt.done o3 r else s.caller j }
              | none => (none : Option DedupState)) = some s2 := h
          clear h
          cases hres : (s.op o3).result with
          | none =>
              rw [hres] at h2
              cases h2
          | some r0 =>
              rw [hres] at h2
              injection h2 with h2
              subst h2
              exact ⟨rfl, fun hk => hk, fun _ _ _ => rfl⟩

theorem dedupRun_frame :
    ∀ (tr : List DedupEvent) (s s2 : DedupState),
      dedupRun s tr = some s2 →
      s2.wsEnabled = s.wsEnabled ∧ (KInv s → KInv s2) ∧
      (KInv s →
        (∀ o m, DedupEvent.settle o (OpResult.err m) ∈ tr →
          s.wsEnabled = false) →
        (∀ e ∈ tr, e.isStart = false) → s2.nOps = s.nOps) := by
  intro tr
  induction tr with
  | nil =>
      intro s s2 h
      injection h with h
      subst h
      exact ⟨rfl, fun hk => hk, fun _ _ _ => rfl⟩
  | cons e tr ih =>
      intro s s2 h
      simp only [dedupRun] at h
      cases hstep : dedupStep s e with
      | none =>
          rw [hstep] at h
          cases h
      | some s1 =>
          rw [hstep] at h
          have hstepf := dedupStep_frame hstep
          have hrest := ih s1 s2 h
          refine ⟨hrest.1.trans hstepf.1, fun hk => hrest.2.1 (hstepf.2.1 hk),
            ?_⟩
          intro hk hsafe hns
          have h1 : s1.nOps = s.nOps :=
            hstepf.2.2 hk
              (fun o m hm => hsafe o m (hm ▸ List.mem_cons_self e tr))
              (hns e (List.mem_cons_self e tr))
          have h2 : s2.nOps = s1.nOps :=
            hrest.2.2 (hstepf.2.1 hk)
              (fun o m hm => by
                rw [hstepf.1]
                exact hsafe o m (List.mem_cons_of_mem _ hm))
              (fun e2 he2 => hns e2 (List.mem_cons_of_mem _ he2))
          rw [h2, h1]

theorem dedupRun_append :
    ∀ (tr1 tr2 : List DedupEvent) (s s2 : DedupState),
      dedupRun s (tr1 ++ tr2) = some s2 →
      ∃ s1, dedupRun s tr1 = some s1 ∧ dedupRun s1 tr2 = some s2 := by
  intro tr1
  induction tr1 with
  | nil =>
      intro tr2 s s2 h
      exact ⟨s, rfl, h⟩
  | cons e tr1 ih =>
      intro tr2 s s2 h
      simp only [List.cons_append, dedupRun] at h ⊢
      cases hstep : dedupStep s e with
      | none =>
          rw [hstep] at h
          cases h
      | some s1 =>
          rw [hstep] at h
          exact ih tr2 s1 s2 h

/-- C2 (amended): in every reachable state of the dedup machine (1) the
tracking map never holds a settled operation — removal is atomic with
settlement, before any delivery; (2) callers finished on the same
operation received the same result; (3) a caller that starts can only ever
attach to an unsettled operation, so a request issued after settlement
never joins the completed one; and (4) for every set of concurrently
issued identical requests (all starts precede every settlement), provided
no shared WebSocket operation fails — in particular always on the pure
HTTP path — exactly one operation is dispatched and all finished callers
receive the same result.  When a shared WebSocket operation does fail the
owner re-dispatches on HTTP while attached callers keep the WebSocket
rejection (see the counterexample). -/
theorem dedup_behaviour (cfg : Bool) (tr : List DedupEvent)
    (s : DedupState) (h : dedupRun (dedupInit cfg) tr = some s) :
    (∀ o, s.pmap = some o → (s.op o).result = none) ∧
    (∀ i j o r r2, s.caller i = CallerSt.done o r →
      s.caller j = CallerSt.done o r2 → r = r2) ∧
    (∀ i s2, dedupStep s (DedupEvent.start i) = some s2 →
      ∀ o b, s2.caller i = CallerSt.waiting o b →
        (s2.op o).result = none) ∧
    (∀ tr1 tr2, tr = tr1 ++ tr2 →
      (∀ e ∈ tr1, e.isStart = true) → (∀ e ∈ tr2, e.isStart = false) →
      (∃ i, DedupEvent.start i ∈ tr) →
      (cfg = true → ∀ o m, DedupEvent.settle o (OpResult.err m) ∉ tr) →
      s.nOps = 1 ∧
        (∀ i j o o2 r r2, s.caller i = CallerSt.done o r →
          s.caller j = CallerSt.done o2 r2 → r = r2)) := by
  have hinv := dedupRun_dInv tr (dedupInit cfg) s (dInv_init cfg) h
  refine ⟨fun o hp => (hinv.1 o hp).2, ?_, ?_, ?_⟩
  · intro i j o r r2 hi hj
    have h1 := (hinv.2.1 i o r hi).2
    have h2 := (hinv.2.1 j o r2 hj).2
    rw [h1] at h2
    injection h2 with h2
  · intro i s2 hstep o b hw
    simp only [dedupStep] at hstep
    cases hci : s.caller i with
    | idle =>
        rw [hci] at hstep
        cases hpm : s.pmap with
        | some o0 =>
            rw [hpm] at hstep
            injection hstep with hstep
            subst hstep
            have hw2 : (if i = i then CallerSt.waiting o0 false
                else s.caller i) = CallerSt.waiting o b := hw
            rw [if_pos rfl] at hw2
            injection hw2 with ho2 hb2
            subst ho2
            exact (hinv.1 o0 hpm).2
        | none =>
            rw [hpm] at hstep
            injection hstep with hstep
            subst hstep
            have hw2 : (if i = i then CallerSt.waiting s.nOps true
                else s.caller i) = CallerSt.waiting o b := hw
            rw [if_pos rfl] at hw2
            injection hw2 with ho2 hb2
            subst ho2
            show (if s.nOps = s.nOps then
                (⟨if s.wsEnabled then OpKind.ws else OpKind.http, i,
                  none⟩ : OpRec)
              else s.op s.nOps).result = none
            rw [if_pos rfl]
    | waiting o3 b3 =>
        rw [hci] at hstep
        cases hstep
    | done o3 r3 =>
        rw [hci] at hstep
        cases hstep
  · intro tr1 tr2 htr hst1 hst2 hstart hws
    obtain ⟨s1, hrun1, hrun2⟩ :=
      dedupRun_append tr1 tr2 (dedupInit cfg) s (htr ▸ h)
    obtain ⟨i0, hi0⟩ := hstart
    have hi02 : DedupEvent.start i0 ∈ tr1 := by
      rw [htr] at hi0
      rcases List.mem_append.mp hi0 with hm | hm
      · exact hm
      · have hf := hst2 _ hm
        cases hf
    have htr1ne : tr1 ≠ [] := by
      intro hnil
      rw [hnil] at hi02
      cases hi02
    have honly : OnlyOne s1 :=
      (dedupRun_starts tr1 (dedupInit cfg) s1 hst1
        (Or.inl ⟨rfl, rfl, fun i => rfl⟩) hrun1).2 htr1ne
    have hframe1 := dedupRun_frame tr1 (dedupInit cfg) s1 hrun1
    have hkinv1 : KInv s1 := hframe1.2.1 (fun _ o => rfl)
    have hws1 : s1.wsEnabled = cfg := hframe1.1
    have hframe2 := dedupRun_frame tr2 s1 s hrun2
    have hnops : s.nOps = s1.nOps := by
      refine hframe2.2.2 hkinv1 ?_ hst2
      intro o m hmem
      cases hcfg : cfg with
      | true =>
          exact absurd (htr.symm ▸ List.mem_append_right tr1 hmem)
            (hws hcfg o m)
      | false =>
          rw [hws1, hcfg]
    constructor
    · rw [hnops, honly.1]
    · intro i j o o2 r r2 hi hj
      have hb1 := hinv.2.1 i o r hi
      have hb2 := hinv.2.1 j o2 r2 hj
      have hlt1 := hb1.1
      have hlt2 := hb2.1
      rw [hnops, honly.1] at hlt1 hlt2
      have ho : o = 0 := by omega
      have ho2 : o2 = 0 := by omega
      subst ho
      subst ho2
      have hsame := hb1.2.symm.trans hb2.2
      injection hsame with hsame

def c2WTrace : List DedupEvent :=
  [DedupEvent.start 0, DedupEvent.start 1,
    DedupEvent.settle 0 (OpResult.ok (Json.str "d")),
    DedupEvent.deliver 0, DedupEvent.deliver 1]

def c2WState : DedupState :=
  (dedupRun (dedupInit false) c2WTrace).getD (dedupInit false)

/-- Witness for the amended C2: two concurrent identical callers on the
pure HTTP path share a single dispatched operation. -/
theorem dedup_behaviour_witness : c2WState.nOps = 1 :=
  ((dedup_behaviour false c2WTrace c2WState rfl).2.2.2
    [DedupEvent.start 0, DedupEvent.start 1]
    [DedupEvent.settle 0 (OpResult.ok (Json.str "d")),
      DedupEvent.deliver 0, DedupEvent.deliver 1]
    rfl (by decide) (by decide) ⟨0, List.mem_cons_self _ _⟩
    (fun hc => Bool.noConfusion hc)).1
